import Mathlib

/-!
Verification of the mcache in-memory TTL cache.

The Go package stores string keys mapped to cache items; every item carries a
value and an expiration field of type time.Time.  We embed the entry table as
an association list with unique keys (Go maps have unique keys), instants as
natural numbers where 0 plays the role of the Go zero time value, and each
operation as a pure function that receives the current instant explicitly and
returns the operation result together with the updated table.  The repository
contains two variants of Set (one returning a boolean, one returning an
error); both are embedded.
-/

namespace Mcache

/-- Keys are Go strings, modelled as lists of characters. -/
abbrev Key := List Char

/-- Mirrors the Go struct CacheItem: a stored value plus the expiration field
of type time.Time.  Instants are natural numbers; 0 corresponds to the Go
zero time value, which is what an unassigned time.Time variable holds. -/
structure CacheItem (T : Type) where
  value : T
  expiration : Nat
deriving Repr, DecidableEq

/-- Mirrors the Go method expired: the item is expired when its expiration
field is not the zero time (IsZero) and lies strictly before the current
instant (Before). -/
def CacheItem.expired {T : Type} (it : CacheItem T) (now : Nat) : Bool :=
  !(it.expiration == 0) && decide (it.expiration < now)

/-- The entry table, modelling the Go map from string keys to cache items. -/
abbrev Cache (T : Type) := List (Key × CacheItem T)

/-- Go map read: data with key index. -/
def lookup {T : Type} : Cache T → Key → Option (CacheItem T)
  | [], _ => none
  | (k1, it) :: rest, k => if k1 = k then some it else lookup rest k

/-- Go builtin delete on the map: removes the binding for the key. -/
def eraseKey {T : Type} (c : Cache T) (k : Key) : Cache T :=
  c.filter fun q => decide (q.1 ≠ k)

/-- Go map assignment: binds the key to the item, replacing any prior
binding. -/
def insertKey {T : Type} (c : Cache T) (k : Key) (it : CacheItem T) : Cache T :=
  (k, it) :: eraseKey c k

/-- The error values of the package: ErrKeyNotFound, ErrKeyExists,
ErrExpired. -/
inductive Err where
  | KeyNotFound
  | KeyExists
  | Expired
deriving Repr, DecidableEq

/-- The expiration instant Set computes: now plus ttl when ttl is strictly
positive, otherwise the expiration variable keeps its zero value. -/
def mkExpiration (now : Nat) (ttl : Int) : Nat :=
  if 0 < ttl then now + ttl.toNat else 0

/-- Mirrors the error-returning Go method Set: a live existing key is
rejected with ErrKeyExists, otherwise the new item is stored. -/
def set {T : Type} (c : Cache T) (now : Nat) (k : Key) (v : T) (ttl : Int) :
    Except Err Unit × Cache T :=
  match lookup c k with
  | some cached =>
      if !(cached.expired now) then (Except.error Err.KeyExists, c)
      else (Except.ok (), insertKey c k ⟨v, mkExpiration now ttl⟩)
  | none => (Except.ok (), insertKey c k ⟨v, mkExpiration now ttl⟩)

/-- Mirrors the boolean-returning Go method Set of the first variant: a live
existing key is rejected with false, otherwise the new item is stored and
true is returned. -/
def setB {T : Type} (c : Cache T) (now : Nat) (k : Key) (v : T) (ttl : Int) :
    Bool × Cache T :=
  match lookup c k with
  | some cached =>
      if !(cached.expired now) then (false, c)
      else (true, insertKey c k ⟨v, mkExpiration now ttl⟩)
  | none => (true, insertKey c k ⟨v, mkExpiration now ttl⟩)

/-- Mirrors the Go method Get: absent key fails with ErrKeyNotFound, expired
key is deleted and fails with ErrExpired, live key returns its value.  The
Except result captures that the Go value and error channels agree: a value
is delivered exactly when the error is nil. -/
def get {T : Type} (c : Cache T) (now : Nat) (k : Key) :
    Except Err T × Cache T :=
  match lookup c k with
  | none => (Except.error Err.KeyNotFound, c)
  | some it =>
      if it.expired now then (Except.error Err.Expired, eraseKey c k)
      else (Except.ok it.value, c)

/-- Mirrors the Go method Has: same classification as Get with a boolean
presence flag instead of the value. -/
def has {T : Type} (c : Cache T) (now : Nat) (k : Key) :
    Except Err Bool × Cache T :=
  match lookup c k with
  | none => (Except.error Err.KeyNotFound, c)
  | some it =>
      if it.expired now then (Except.error Err.Expired, eraseKey c k)
      else (Except.ok true, c)

/-- Mirrors the Go method Del: Has-then-delete, propagating the Has error
(including the eviction Has performs on an expired key). -/
def del {T : Type} (c : Cache T) (now : Nat) (k : Key) :
    Except Err Unit × Cache T :=
  match has c now k with
  | (Except.error e, c1) => (Except.error e, c1)
  | (Except.ok _, c1) => (Except.ok (), eraseKey c1 k)

/-- Mirrors the Go method Cleanup of both variants: the table keeps exactly
the entries that are not expired at sweep time. -/
def cleanup {T : Type} (c : Cache T) (now : Nat) : Cache T :=
  c.filter fun q => !(q.2.expired now)

/-- Mirrors the Go method Clear: the table is replaced with an empty one. -/
def clear {T : Type} (_c : Cache T) : Cache T := []

/-- Embeds strings.HasPrefix applied as HasPrefix k p: the structural
prefix relation on the character lists. -/
def hasPrefix (k p : Key) : Bool := p.isPrefixOf k

/-- Mirrors the Go method DelPrefix: removes every entry whose key has the
given prefix per strings.HasPrefix, returning how many were removed. -/
def delPrefix {T : Type} (c : Cache T) (p : Key) : Nat × Cache T :=
  ((c.filter fun q => hasPrefix q.1 p).length,
   c.filter fun q => !(hasPrefix q.1 p))

/-- The manual match of DelPrefixAltMatch: the length guard with the slice
comparison, len k at least len p and the first len p characters of k equal
to p. -/
def altMatch (k p : Key) : Bool :=
  decide (p.length ≤ k.length) && decide (k.take p.length = p)

/-- Mirrors the Go method DelPrefixAltMatch: same removal loop as DelPrefix
with the manual length-and-slice comparison in place of strings.HasPrefix. -/
def delPrefixAltMatch {T : Type} (c : Cache T) (p : Key) : Nat × Cache T :=
  ((c.filter fun q => altMatch q.1 p).length,
   c.filter fun q => !(altMatch q.1 p))

/-- Well-formedness of the embedding: the keys of the association list are
distinct, as the keys of a Go map are. -/
def WF {T : Type} (c : Cache T) : Prop := (c.map Prod.fst).Nodup

/-! Helper lemmas about lookup, eraseKey and filter. -/

theorem lookup_filterKey {T : Type} (f : Key → Bool) (c : Cache T) (k : Key) :
    lookup (c.filter fun q => f q.1) k = if f k then lookup c k else none := by
  induction c with
  | nil => simp [lookup]
  | cons hd tl ih =>
    obtain ⟨k1, it1⟩ := hd
    by_cases hf : f k1
    · rw [List.filter_cons_of_pos (by simpa using hf)]
      by_cases hk : k1 = k
      · subst hk
        simp [lookup, hf]
      · simp only [lookup, if_neg hk]
        exact ih
    · rw [List.filter_cons_of_neg (by simpa using hf)]
      by_cases hk : k1 = k
      · subst hk
        rw [ih, if_neg hf, if_neg hf]
      · simp only [lookup, if_neg hk]
        exact ih

theorem lookup_eraseKey {T : Type} (c : Cache T) (k k1 : Key) :
    lookup (eraseKey c k) k1 = if k1 = k then none else lookup c k1 := by
  have h := lookup_filterKey (fun q => decide (q ≠ k)) c k1
  simp only [eraseKey]
  rw [h]
  by_cases hk : k1 = k
  · simp [hk]
  · simp [hk]

theorem lookup_eraseKey_self {T : Type} (c : Cache T) (k : Key) :
    lookup (eraseKey c k) k = none := by
  rw [lookup_eraseKey, if_pos rfl]

theorem lookup_insertKey_self {T : Type} (c : Cache T) (k : Key)
    (it : CacheItem T) : lookup (insertKey c k it) k = some it := by
  simp [insertKey, lookup]

theorem lookup_eq_none_of_not_mem {T : Type} (c : Cache T) (k : Key)
    (h : k ∉ c.map Prod.fst) : lookup c k = none := by
  induction c with
  | nil => rfl
  | cons hd tl ih =>
    obtain ⟨k1, it1⟩ := hd
    simp only [List.map_cons, List.mem_cons] at h
    push_neg at h
    have hk : k1 ≠ k := fun he => h.1 he.symm
    simp only [lookup, if_neg hk]
    exact ih h.2

theorem lookup_filter_none {T : Type} (pred : Key × CacheItem T → Bool)
    (c : Cache T) (k : Key) (h : lookup c k = none) :
    lookup (c.filter pred) k = none := by
  induction c with
  | nil => rfl
  | cons hd tl ih =>
    obtain ⟨k1, it1⟩ := hd
    simp only [lookup] at h
    by_cases hk : k1 = k
    · rw [if_pos hk] at h
      exact absurd h (by simp)
    · rw [if_neg hk] at h
      by_cases hp : pred (k1, it1)
      · rw [List.filter_cons_of_pos hp]
        simp only [lookup, if_neg hk]
        exact ih h
      · rw [List.filter_cons_of_neg (by simpa using hp)]
        exact ih h

theorem lookup_filter_of_nodup {T : Type} (pred : Key × CacheItem T → Bool)
    (c : Cache T) (hwf : WF c) (k : Key) (it : CacheItem T)
    (hl : lookup c k = some it) :
    lookup (c.filter pred) k = if pred (k, it) then some it else none := by
  induction c with
  | nil => exact absurd hl (by simp [lookup])
  | cons hd tl ih =>
    obtain ⟨k1, it1⟩ := hd
    simp only [WF, List.map_cons, List.nodup_cons] at hwf
    by_cases hk : k1 = k
    · subst hk
      have hl1 : it1 = it := by simpa [lookup] using hl
      subst hl1
      by_cases hp : pred (k1, it1)
      · rw [List.filter_cons_of_pos hp]
        simp [lookup, hp]
      · rw [List.filter_cons_of_neg (by simpa using hp), if_neg hp]
        exact lookup_filter_none pred tl k1
          (lookup_eq_none_of_not_mem tl k1 hwf.1)
    · simp only [lookup, if_neg hk] at hl
      have htl := ih hwf.2 hl
      by_cases hp : pred (k1, it1)
      · rw [List.filter_cons_of_pos hp]
        simp only [lookup, if_neg hk]
        exact htl
      · rw [List.filter_cons_of_neg (by simpa using hp)]
        exact htl

/-! The claims. -/

/-- C1: if the key is present in the table and not expired at the call
instant, Set is rejected (false in the boolean variant, ErrKeyExists in the
error variant), the table is left unchanged, and a Get at any instant at
which the stored item is still not expired returns the original value. -/
theorem set_live_key_rejected {T : Type} (c : Cache T) (now : Nat) (k : Key)
    (it : CacheItem T) (v2 : T) (ttl : Int)
    (hl : lookup c k = some it) (he : it.expired now = false) :
    set c now k v2 ttl = (Except.error Err.KeyExists, c) ∧
    setB c now k v2 ttl = (false, c) ∧
    ∀ now2, it.expired now2 = false →
      get c now2 k = (Except.ok it.value, c) := by
  refine ⟨by simp [set, hl, he], by simp [setB, hl, he], ?_⟩
  intro now2 he2
  simp [get, hl, he2]

/-- Witness for C1 at a concrete table with one live key. -/
theorem set_live_key_rejected_witness :
    set [([Char.ofNat 97], ⟨5, 10⟩)] 3 [Char.ofNat 97] 9 5
      = (Except.error Err.KeyExists, [([Char.ofNat 97], ⟨5, 10⟩)]) ∧
    setB [([Char.ofNat 97], ⟨5, 10⟩)] 3 [Char.ofNat 97] 9 5
      = (false, [([Char.ofNat 97], ⟨5, 10⟩)]) ∧
    get [([Char.ofNat 97], (⟨5, 10⟩ : CacheItem Nat))] 4 [Char.ofNat 97]
      = (Except.ok 5, [([Char.ofNat 97], ⟨5, 10⟩)]) := by
  have h := set_live_key_rejected [([Char.ofNat 97], ⟨5, 10⟩)] 3
    [Char.ofNat 97] (⟨5, 10⟩ : CacheItem Nat) 9 5 (by decide) (by decide)
  exact ⟨h.1, h.2.1, h.2.2 4 (by decide)⟩

/-- C2: Get on an absent key fails with ErrKeyNotFound and delivers no value
(the Except result ties the value and error channels together); Get on an
expired key removes the key and fails with ErrExpired, never delivering the
stale value, and a subsequent Has on the resulting table fails with
ErrKeyNotFound; Get on a live key returns the stored value with no error. -/
theorem get_classification {T : Type} (c : Cache T) (now now2 : Nat)
    (k : Key) :
    (lookup c k = none → get c now k = (Except.error Err.KeyNotFound, c)) ∧
    (∀ it, lookup c k = some it → it.expired now = true →
      get c now k = (Except.error Err.Expired, eraseKey c k) ∧
      lookup (eraseKey c k) k = none ∧
      has (eraseKey c k) now2 k
        = (Except.error Err.KeyNotFound, eraseKey c k)) ∧
    (∀ it, lookup c k = some it → it.expired now = false →
      get c now k = (Except.ok it.value, c)) := by
  refine ⟨fun h => by simp [get, h], ?_, ?_⟩
  · intro it hl he
    refine ⟨by simp [get, hl, he], lookup_eraseKey_self c k, ?_⟩
    simp [has, lookup_eraseKey_self]
  · intro it hl he
    simp [get, hl, he]

/-- Witness for C2 covering all three branches on concrete tables. -/
theorem get_classification_witness :
    get ([] : Cache Nat) 0 [Char.ofNat 97]
      = (Except.error Err.KeyNotFound, []) ∧
    (get [([Char.ofNat 97], (⟨5, 10⟩ : CacheItem Nat))] 11 [Char.ofNat 97]
      = (Except.error Err.Expired, []) ∧
     has ([] : Cache Nat) 12 [Char.ofNat 97]
      = (Except.error Err.KeyNotFound, [])) ∧
    get [([Char.ofNat 97], (⟨5, 10⟩ : CacheItem Nat))] 9 [Char.ofNat 97]
      = (Except.ok 5, [([Char.ofNat 97], ⟨5, 10⟩)]) := by
  have h1 := (get_classification ([] : Cache Nat) 0 0 [Char.ofNat 97]).1
    (by decide)
  have h2 := (get_classification [([Char.ofNat 97],
    (⟨5, 10⟩ : CacheItem Nat))] 11 12 [Char.ofNat 97]).2.1
    ⟨5, 10⟩ (by decide) (by decide)
  have h3 := (get_classification [([Char.ofNat 97],
    (⟨5, 10⟩ : CacheItem Nat))] 9 9 [Char.ofNat 97]).2.2
    ⟨5, 10⟩ (by decide) (by decide)
  refine ⟨h1, ⟨?_, ?_⟩, h3⟩
  · have he : eraseKey [([Char.ofNat 97], (⟨5, 10⟩ : CacheItem Nat))]
      [Char.ofNat 97] = [] := by decide
    rw [he] at h2
    exact h2.1
  · have he : eraseKey [([Char.ofNat 97], (⟨5, 10⟩ : CacheItem Nat))]
      [Char.ofNat 97] = [] := by decide
    rw [he] at h2
    exact h2.2.2

/-- C3: if the key is absent, or present but expired at the call instant,
then Set succeeds in both variants, stores the new value with the computed
expiration (overwriting any prior entry), and a Get at any instant at which
the new item is not yet expired returns the new value. -/
theorem set_absent_or_expired_succeeds {T : Type} (c : Cache T) (now : Nat)
    (k : Key) (v2 : T) (ttl : Int)
    (h : lookup c k = none
      ∨ ∃ it, lookup c k = some it ∧ it.expired now = true) :
    ∃ c2, set c now k v2 ttl = (Except.ok (), c2) ∧
      setB c now k v2 ttl = (true, c2) ∧
      lookup c2 k = some ⟨v2, mkExpiration now ttl⟩ ∧
      ∀ now2, CacheItem.expired ⟨v2, mkExpiration now ttl⟩ now2 = false →
        get c2 now2 k = (Except.ok v2, c2) := by
  refine ⟨insertKey c k ⟨v2, mkExpiration now ttl⟩, ?_, ?_,
    lookup_insertKey_self c k _, ?_⟩
  · rcases h with h | ⟨it, hl, he⟩
    · simp [set, h]
    · simp [set, hl, he]
  · rcases h with h | ⟨it, hl, he⟩
    · simp [setB, h]
    · simp [setB, hl, he]
  · intro now2 he2
    simp [get, lookup_insertKey_self, he2]

/-- Witness for C3: overwriting an expired entry on a concrete table. -/
theorem set_absent_or_expired_succeeds_witness :
    ∃ c2, set [([Char.ofNat 97], (⟨5, 10⟩ : CacheItem Nat))] 11
        [Char.ofNat 97] 7 4 = (Except.ok (), c2) ∧
      setB [([Char.ofNat 97], (⟨5, 10⟩ : CacheItem Nat))] 11
        [Char.ofNat 97] 7 4 = (true, c2) ∧
      lookup c2 [Char.ofNat 97] = some ⟨7, mkExpiration 11 4⟩ ∧
      ∀ now2,
        CacheItem.expired ⟨7, mkExpiration 11 4⟩ now2 = false →
        get c2 now2 [Char.ofNat 97] = (Except.ok 7, c2) :=
  set_absent_or_expired_succeeds [([Char.ofNat 97],
    (⟨5, 10⟩ : CacheItem Nat))] 11 [Char.ofNat 97] 7 4
    (Or.inr ⟨⟨5, 10⟩, by decide, by decide⟩)

/-- C8: Del on a present live key succeeds and removes it; Del on an absent
key fails with ErrKeyNotFound and is not a silent success; Del on a present
expired key fails with ErrExpired and evicts the key as a side effect of
the Has check. -/
theorem del_classification {T : Type} (c : Cache T) (now : Nat) (k : Key) :
    (∀ it, lookup c k = some it → it.expired now = false →
      del c now k = (Except.ok (), eraseKey c k)) ∧
    (lookup c k = none → del c now k = (Except.error Err.KeyNotFound, c)) ∧
    (∀ it, lookup c k = some it → it.expired now = true →
      del c now k = (Except.error Err.Expired, eraseKey c k) ∧
      lookup (eraseKey c k) k = none) := by
  refine ⟨?_, ?_, ?_⟩
  · intro it hl he
    simp [del, has, hl, he]
  · intro h
    simp [del, has, h]
  · intro it hl he
    exact ⟨by simp [del, has, hl, he], lookup_eraseKey_self c k⟩

/-- Witness for C8 covering all three branches on concrete tables. -/
theorem del_classification_witness :
    del [([Char.ofNat 97], (⟨5, 10⟩ : CacheItem Nat))] 9 [Char.ofNat 97]
      = (Except.ok (), []) ∧
    del ([] : Cache Nat) 9 [Char.ofNat 97]
      = (Except.error Err.KeyNotFound, []) ∧
    del [([Char.ofNat 97], (⟨5, 10⟩ : CacheItem Nat))] 11 [Char.ofNat 97]
      = (Except.error Err.Expired, []) := by
  have h1 := (del_classification [([Char.ofNat 97],
    (⟨5, 10⟩ : CacheItem Nat))] 9 [Char.ofNat 97]).1 ⟨5, 10⟩
    (by decide) (by decide)
  have h2 := (del_classification ([] : Cache Nat) 9 [Char.ofNat 97]).2.1
    (by decide)
  have h3 := (del_classification [([Char.ofNat 97],
    (⟨5, 10⟩ : CacheItem Nat))] 11 [Char.ofNat 97]).2.2 ⟨5, 10⟩
    (by decide) (by decide)
  have he : eraseKey [([Char.ofNat 97], (⟨5, 10⟩ : CacheItem Nat))]
    [Char.ofNat 97] = [] := by decide
  rw [he] at h1
  rw [he] at h3
  exact ⟨h1, h2, h3.1⟩

/-- C4: on a table with unique keys (as in a Go map), Cleanup removes
exactly the entries expired at sweep time: every expired entry is gone,
every entry with no expiration or a future expiration survives with its
value and expiration unchanged, and no new key appears. -/
theorem cleanup_removes_exactly_expired {T : Type} (c : Cache T) (now : Nat)
    (hwf : WF c) :
    (∀ k it, lookup c k = some it → it.expired now = true →
      lookup (cleanup c now) k = none) ∧
    (∀ k it, lookup c k = some it → it.expired now = false →
      lookup (cleanup c now) k = some it) ∧
    (∀ k, lookup c k = none → lookup (cleanup c now) k = none) := by
  refine ⟨?_, ?_, ?_⟩
  · intro k it hl he
    have h := lookup_filter_of_nodup (fun q => !(q.2.expired now))
      c hwf k it hl
    simp only [cleanup, h, he]
    simp
  · intro k it hl he
    have h := lookup_filter_of_nodup (fun q => !(q.2.expired now))
      c hwf k it hl
    simp only [cleanup, h, he]
    simp
  · intro k h
    exact lookup_filter_none _ c k h

/-- Witness for C4 on a concrete two-entry table, one entry expired and one
without expiration. -/
theorem cleanup_removes_exactly_expired_witness :
    lookup (cleanup [([Char.ofNat 97], (⟨5, 10⟩ : CacheItem Nat)),
      ([Char.ofNat 98], ⟨6, 0⟩)] 11) [Char.ofNat 97] = none ∧
    lookup (cleanup [([Char.ofNat 97], (⟨5, 10⟩ : CacheItem Nat)),
      ([Char.ofNat 98], ⟨6, 0⟩)] 11) [Char.ofNat 98] = some ⟨6, 0⟩ ∧
    lookup (cleanup [([Char.ofNat 97], (⟨5, 10⟩ : CacheItem Nat)),
      ([Char.ofNat 98], ⟨6, 0⟩)] 11) [Char.ofNat 99] = none := by
  have h := cleanup_removes_exactly_expired
    [([Char.ofNat 97], (⟨5, 10⟩ : CacheItem Nat)), ([Char.ofNat 98], ⟨6, 0⟩)]
    11 (by unfold WF; decide)
  exact ⟨h.1 [Char.ofNat 97] ⟨5, 10⟩ (by decide) (by decide),
    h.2.1 [Char.ofNat 98] ⟨6, 0⟩ (by decide) (by decide),
    h.2.2 [Char.ofNat 99] (by decide)⟩

/-- C5: after Set with ttl 0 succeeds, the stored entry never expires: at
every later instant Get still returns the value, Has returns true, and the
entry survives every Cleanup with its zero expiration field unchanged. -/
theorem set_zero_ttl_never_expires {T : Type} (c : Cache T) (now : Nat)
    (k : Key) (v : T) (c2 : Cache T)
    (h : set c now k v 0 = (Except.ok (), c2)) :
    ∀ now2,
      get c2 now2 k = (Except.ok v, c2) ∧
      has c2 now2 k = (Except.ok true, c2) ∧
      lookup (cleanup c2 now2) k = some ⟨v, 0⟩ := by
  have hm : mkExpiration now 0 = 0 := by
    rw [mkExpiration, if_neg (by omega)]
  have hc2 : c2 = insertKey c k ⟨v, 0⟩ := by
    cases hl : lookup c k with
    | none =>
        rw [set, hl] at h
        simp only [hm, Prod.mk.injEq] at h
        exact h.2.symm
    | some it =>
        by_cases he : it.expired now
        · rw [set, hl] at h
          simp only [he, hm, Bool.not_true, Bool.false_eq_true, if_false,
            Prod.mk.injEq] at h
          exact h.2.symm
        · rw [set, hl] at h
          simp [he] at h
  subst hc2
  intro now2
  have hexp : CacheItem.expired (⟨v, 0⟩ : CacheItem T) now2 = false := by
    simp [CacheItem.expired]
  refine ⟨?_, ?_, ?_⟩
  · simp [get, lookup_insertKey_self, hexp]
  · simp [has, lookup_insertKey_self, hexp]
  · show lookup (List.filter _ ((k, ⟨v, 0⟩) :: eraseKey c k)) k = _
    rw [List.filter_cons_of_pos (by simp [CacheItem.expired])]
    simp [lookup]

/-- Witness for C5: a concrete Set with ttl 0 followed by Get, Has and
Cleanup at a much later instant. -/
theorem set_zero_ttl_never_expires_witness :
    get [([Char.ofNat 97], (⟨5, 0⟩ : CacheItem Nat))] 1000000 [Char.ofNat 97]
      = (Except.ok 5, [([Char.ofNat 97], ⟨5, 0⟩)]) ∧
    has [([Char.ofNat 97], (⟨5, 0⟩ : CacheItem Nat))] 1000000 [Char.ofNat 97]
      = (Except.ok true, [([Char.ofNat 97], ⟨5, 0⟩)]) ∧
    lookup (cleanup [([Char.ofNat 97], (⟨5, 0⟩ : CacheItem Nat))] 1000000)
      [Char.ofNat 97] = some ⟨5, 0⟩ :=
  set_zero_ttl_never_expires [] 3 [Char.ofNat 97] 5
    [([Char.ofNat 97], ⟨5, 0⟩)] rfl 1000000

/-- C9: Set with a strictly negative ttl behaves exactly like Set with ttl
0 in both variants; the computed expiration is the zero time, so the stored
entry never expires and is in particular not stored already expired. -/
theorem set_negative_ttl_eq_zero_ttl {T : Type} (c : Cache T) (now : Nat)
    (k : Key) (v : T) (ttl : Int) (h : ttl < 0) :
    set c now k v ttl = set c now k v 0 ∧
    setB c now k v ttl = setB c now k v 0 ∧
    mkExpiration now ttl = 0 ∧
    ∀ now2, CacheItem.expired ⟨v, mkExpiration now ttl⟩ now2 = false := by
  have hm : mkExpiration now ttl = 0 := by
    rw [mkExpiration, if_neg (by omega)]
  have hm0 : mkExpiration now 0 = 0 := by
    rw [mkExpiration, if_neg (by omega)]
  refine ⟨?_, ?_, hm, ?_⟩
  · simp only [set, hm, hm0]
  · simp only [setB, hm, hm0]
  · intro now2
    simp [CacheItem.expired, hm]

/-- Witness for C9 at a concrete negative ttl. -/
theorem set_negative_ttl_eq_zero_ttl_witness :
    set ([] : Cache Nat) 3 [Char.ofNat 97] 5 (-7)
      = set ([] : Cache Nat) 3 [Char.ofNat 97] 5 0 ∧
    setB ([] : Cache Nat) 3 [Char.ofNat 97] 5 (-7)
      = setB ([] : Cache Nat) 3 [Char.ofNat 97] 5 0 ∧
    mkExpiration 3 (-7) = 0 ∧
    ∀ now2,
      CacheItem.expired (⟨(5 : Nat), mkExpiration 3 (-7)⟩ : CacheItem Nat)
        now2 = false :=
  set_negative_ttl_eq_zero_ttl ([] : Cache Nat) 3 [Char.ofNat 97] 5 (-7)
    (by decide)

/-! Helper lemmas for the prefix operations. -/

theorem altMatch_eq_hasPrefix (k p : Key) : altMatch k p = hasPrefix k p := by
  by_cases h : p <+: k
  · have h1 : p.length ≤ k.length := h.length_le
    have h2 : k.take p.length = p := (List.prefix_iff_eq_take.mp h).symm
    simp [altMatch, hasPrefix, h1, h2, List.isPrefixOf_iff_prefix, h]
  · have h3 : hasPrefix k p = false := by
      rw [hasPrefix]
      exact Bool.eq_false_iff.mpr
        fun hc => h (List.isPrefixOf_iff_prefix.mp hc)
    rw [h3]
    by_cases h1 : p.length ≤ k.length
    · have h2 : k.take p.length ≠ p := by
        intro he
        exact h (he ▸ List.take_prefix p.length k)
      simp [altMatch, h1, h2]
    · simp [altMatch, h1]

/-- C7: DelPrefix removes exactly the entries whose key has the given
literal prefix, with no regard to their expiry state; the returned count is
the number of matching keys; keys without the prefix keep their bindings;
and an immediately repeated DelPrefix returns 0 and changes nothing.  A
count of 0 is an ordinary outcome, there is no error channel. -/
theorem delPrefix_spec {T : Type} (c : Cache T) (p : Key) :
    (∀ k, hasPrefix k p = true → lookup (delPrefix c p).2 k = none) ∧
    (∀ k, hasPrefix k p = false → lookup (delPrefix c p).2 k = lookup c k) ∧
    (delPrefix c p).1
      = ((c.map Prod.fst).filter fun k => hasPrefix k p).length ∧
    delPrefix (delPrefix c p).2 p = (0, (delPrefix c p).2) := by
  refine ⟨?_, ?_, ?_, ?_⟩
  · intro k hk
    have h := lookup_filterKey (fun k1 => !(hasPrefix k1 p)) c k
    simp only [delPrefix, h, hk]
    simp
  · intro k hk
    have h := lookup_filterKey (fun k1 => !(hasPrefix k1 p)) c k
    simp only [delPrefix, h, hk]
    simp
  · simp only [delPrefix, List.filter_map]
    rw [List.length_map]
    rfl
  · simp only [delPrefix, List.filter_filter, Prod.mk.injEq]
    constructor
    · simp [Bool.and_not_self]
    · simp [Bool.and_self]

/-- Witness for C7 on a concrete table with two matching keys and one
non-matching key. -/
theorem delPrefix_spec_witness :
    lookup (delPrefix [([Char.ofNat 117, Char.ofNat 97],
        (⟨1, 0⟩ : CacheItem Nat)),
      ([Char.ofNat 117, Char.ofNat 98], ⟨2, 3⟩), ([Char.ofNat 107], ⟨3, 0⟩)]
      [Char.ofNat 117]).2 [Char.ofNat 117, Char.ofNat 97] = none ∧
    lookup (delPrefix [([Char.ofNat 117, Char.ofNat 97],
        (⟨1, 0⟩ : CacheItem Nat)),
      ([Char.ofNat 117, Char.ofNat 98], ⟨2, 3⟩), ([Char.ofNat 107], ⟨3, 0⟩)]
      [Char.ofNat 117]).2 [Char.ofNat 107]
      = lookup [([Char.ofNat 117, Char.ofNat 97], (⟨1, 0⟩ : CacheItem Nat)),
      ([Char.ofNat 117, Char.ofNat 98], ⟨2, 3⟩), ([Char.ofNat 107], ⟨3, 0⟩)]
      [Char.ofNat 107] ∧
    (delPrefix [([Char.ofNat 117, Char.ofNat 97], (⟨1, 0⟩ : CacheItem Nat)),
      ([Char.ofNat 117, Char.ofNat 98], ⟨2, 3⟩), ([Char.ofNat 107], ⟨3, 0⟩)]
      [Char.ofNat 117]).1 = 2 ∧
    delPrefix (delPrefix [([Char.ofNat 117, Char.ofNat 97],
        (⟨1, 0⟩ : CacheItem Nat)),
      ([Char.ofNat 117, Char.ofNat 98], ⟨2, 3⟩), ([Char.ofNat 107], ⟨3, 0⟩)]
      [Char.ofNat 117]).2 [Char.ofNat 117]
      = (0, (delPrefix [([Char.ofNat 117, Char.ofNat 97],
        (⟨1, 0⟩ : CacheItem Nat)),
      ([Char.ofNat 117, Char.ofNat 98], ⟨2, 3⟩), ([Char.ofNat 107], ⟨3, 0⟩)]
      [Char.ofNat 117]).2) := by
  have h := delPrefix_spec [([Char.ofNat 117, Char.ofNat 97],
      (⟨1, 0⟩ : CacheItem Nat)),
    ([Char.ofNat 117, Char.ofNat 98], ⟨2, 3⟩), ([Char.ofNat 107], ⟨3, 0⟩)]
    [Char.ofNat 117]
  refine ⟨h.1 [Char.ofNat 117, Char.ofNat 97] (by decide),
    h.2.1 [Char.ofNat 107] (by decide), ?_, h.2.2.2⟩
  rw [h.2.2.1]
  decide

/-- C10: DelPrefixAltMatch and DelPrefix are observationally equivalent on
every table and prefix: the manual length-and-slice comparison matches
exactly the keys strings.HasPrefix matches, so both calls return the same
count and the same final table. -/
theorem delPrefixAltMatch_eq_delPrefix {T : Type} (c : Cache T) (p : Key) :
    delPrefixAltMatch c p = delPrefix c p := by
  simp only [delPrefixAltMatch, delPrefix, altMatch_eq_hasPrefix]

/-- C6 counterexample: the code keeps no optional expiration field; the
never-expiring entry Set stores for ttl 0 carries the plain zero instant in
its expiration field, the very item an expiration timestamp equal to the
zero instant would produce, and that item is treated as not expired at an
arbitrarily late instant — the sentinel zero value and a genuine zero
instant are not distinguishable. -/
theorem expiration_zero_sentinel_collision :
    (set ([] : Cache Nat) 5 [Char.ofNat 107] 7 0).2
      = [([Char.ofNat 107], ⟨7, 0⟩)] ∧
    CacheItem.expired (⟨7, 0⟩ : CacheItem Nat) 1000000 = false := by
  exact ⟨rfl, rfl⟩

/-- C6 amended: the no-expiration state is represented by the sentinel zero
time value (Go time.Time zero, tested with IsZero), so an entry whose
expiration field holds the zero instant never expires and coincides with a
never-expiring entry; expirations Set actually computes for positive ttl
are never the zero instant. -/
theorem expiration_zero_sentinel_semantics {T : Type} (v : T)
    (now now2 : Nat) (ttl : Int) (h : 0 < ttl) :
    CacheItem.expired (⟨v, 0⟩ : CacheItem T) now2 = false ∧
    mkExpiration now 0 = 0 ∧
    mkExpiration now ttl ≠ 0 := by
  refine ⟨by simp [CacheItem.expired], by rw [mkExpiration, if_neg (by omega)], ?_⟩
  rw [mkExpiration, if_pos h]
  omega

/-- Witness for the amended C6 at concrete values. -/
theorem expiration_zero_sentinel_semantics_witness :
    CacheItem.expired (⟨(1 : Nat), 0⟩ : CacheItem Nat) 9 = false ∧
    mkExpiration 4 0 = 0 ∧
    mkExpiration 4 3 ≠ 0 :=
  expiration_zero_sentinel_semantics (1 : Nat) 4 9 3 (by decide)

end Mcache
